import Mathlib

/-!
Verification of the CodeSage incremental indexing pipeline.

This file gives a shallow embedding, in Lean, of the core operations of the
CodeSage repository (main.go and review.go) and proves or refutes the
specification claims about them:

- the thermal guard (`TemperatureMonitor.CoolDown`, review.go lines 163-207),
  modelled as a function over the sequence of successful temperature readings;
- the file discovery and filter (`parseDirectory`, main.go lines 200-228),
  modelled over an inductive directory tree with Go path/string helpers;
- the per-file indexing loop of `indexCodebase` (main.go lines 454-577),
  modelled as a fold over per-file environment inputs producing a run state
  and a trace of observable events;
- the vector-store rebuild step (`indexCodebase` lines 601-615 and
  `createVectorStore` lines 618-675);
- the query path (`searchCodebase`, main.go lines 769-822) against the
  chromem-go v0.7.0 collection API.

External collaborators (LLM calls, the SQLite hash table, the filesystem,
wall-clock timers and the temperature sensor) appear as explicit inputs:
per-file oracle fields carry the outcome each collaborator call would have
had, so the control flow of the Go code can be reproduced faithfully.
-/

namespace CodeSage

/-! ## Constants

From `indexCodebase` (main.go lines 422-427) and the monitor construction
`NewTemperatureMonitor(80, 65, !isLocalHost)` (main.go line 451).  Durations
are in seconds. -/

/-- `maxFileProcessTime = 30 * time.Second` (main.go line 424). -/
def maxFileProcessTime : Nat := 30

/-- `maxTotalProcessTime = 5 * time.Minute` (main.go line 425). -/
def maxTotalProcessTime : Nat := 300

/-- `coolDownPeriod = 60 * time.Second` (main.go line 426). -/
def coolDownPeriod : Nat := 60

/-- Critical threshold passed to `NewTemperatureMonitor` (main.go line 451). -/
def criticalTemp : Int := 80

/-- Safe threshold passed to `NewTemperatureMonitor` (main.go line 451). -/
def safeTemp : Int := 65

/-- The batch pause `time.Sleep(10 * time.Second)` (main.go line 543; the
printed message says 5 seconds but the sleep is 10). -/
def batchPauseSeconds : Nat := 10

/-! ## Thermal guard: `CoolDown` (review.go lines 163-207)

`getTemperature` returns an error in fallback mode and when no sensor is
found; `CoolDown` then sleeps 60 s and returns.  The claims about the
cooldown loop quantify over sequences of *successful* readings, so the loop
is modelled over a list of integer readings: each iteration consumes one
reading, returns if it is below the safe threshold, and otherwise sleeps
for the computed wait and re-measures. -/

/-- The dynamic cooldown wait of one `CoolDown` iteration
(review.go lines 200-205):

```go
waitSec := 2
if temp > tm.criticalTemp {
    waitSec = 5 + int(temp-tm.safeTemp)
}
```

Note the comparison is strict (`>`), so a reading exactly at the critical
threshold keeps the base wait of 2 seconds. -/
def coolDownWait (critical safe temp : Int) : Int :=
  if critical < temp then 5 + (temp - safe) else 2

/-- The `CoolDown` loop (review.go lines 166-206) over the list of successive
successful readings.  Returns `some (n, waits)` where `n` is the number of
readings consumed (the loop returns right after observing the `n`-th reading,
which is the first one strictly below the safe threshold) and `waits` is the
list of sleeps performed, one per reading at or above the safe threshold.
Returns `none` if the supplied reading sequence is exhausted before a
sub-safe reading occurs. -/
def coolDown (critical safe : Int) : List Int → Option (Nat × List Int)
  | [] => none
  | t :: rest =>
    if t < safe then some (1, [])
    else
      match coolDown critical safe rest with
      | none => none
      | some (n, waits) => some (n + 1, coolDownWait critical safe t :: waits)

/-! ## Claims C6 and C8 -/

/-- Claim C6: for a sequence of readings at or above the critical threshold
followed by one reading strictly below the safe threshold, `CoolDown` returns
only after that sub-safe reading is observed and never earlier: it consumes
exactly all the critical readings plus the one sub-safe reading.  (The
hypothesis `safe ≤ critical` holds for the monitor as constructed, 65 ≤ 80;
readings in the warning band `[safe, critical)` also do not let the loop
return, since returning requires a reading `< safe`.) -/
theorem c6_cooldown_returns_after_subsafe
    (critical safe sub : Int) (pre rest : List Int)
    (hth : safe ≤ critical)
    (hpre : ∀ r ∈ pre, critical ≤ r)
    (hsub : sub < safe) :
    ∃ waits, coolDown critical safe (pre ++ sub :: rest) =
      some (pre.length + 1, waits) := by
  induction pre with
  | nil =>
    exact ⟨[], by simp [coolDown, hsub]⟩
  | cons t ts ih =>
    have ht : critical ≤ t := hpre t (List.mem_cons_self t ts)
    have hts : ∀ r ∈ ts, critical ≤ r := fun r hr => hpre r (List.mem_cons_of_mem t hr)
    have hnotlt : ¬ t < safe := by omega
    obtain ⟨waits, hw⟩ := ih hts
    refine ⟨coolDownWait critical safe t :: waits, ?_⟩
    simp [coolDown, if_neg hnotlt, hw]

/-- Witness for C6 at a concrete input: readings 85 and 82 (critical range
for thresholds 80/65) followed by 60 (sub-safe); the loop consumes all
three readings. -/
theorem c6_cooldown_returns_after_subsafe_witness :
    ∃ waits, coolDown 80 65 [85, 82, 60] = some (3, waits) := by
  have h := c6_cooldown_returns_after_subsafe 80 65 60 [85, 82] []
    (by decide) (by decide) (by decide)
  simpa using h

/-- Counterexample to claim C8 as stated: at a reading exactly equal to the
critical threshold (80, with safe threshold 65) — which is "at or above the
critical threshold" — the computed wait is the fixed base 2, which is even
smaller than the excess `reading - safe = 15`, so it is not any base wait
enlarged by that excess.  A concrete `CoolDown` run on readings `[80, 60]`
sleeps 2 seconds for the critical-range reading 80.  (For a reading strictly
above critical, e.g. 81, the wait is `5 + (reading - safe)`.) -/
theorem c8_counterexample :
    coolDown 80 65 [80, 60] = some (2, [2]) ∧
    coolDownWait 80 65 80 = 2 ∧
    coolDownWait 80 65 80 < 80 - 65 ∧
    coolDownWait 80 65 81 = 5 + (81 - 65) := by
  refine ⟨?_, by decide, by decide, by decide⟩
  simp [coolDown, coolDownWait]

/-- Claim C8 (amended): in every `CoolDown` iteration in which the reading is
strictly above the critical threshold, the computed wait is the base wait 5
enlarged by the amount the reading exceeds the safe threshold; at or below
the critical threshold (including a reading exactly at it) the fixed base
wait of 2 seconds is used. -/
theorem c8_wait_formula (critical safe temp : Int) :
    (critical < temp → coolDownWait critical safe temp = 5 + (temp - safe)) ∧
    (temp ≤ critical → coolDownWait critical safe temp = 2) := by
  constructor
  · intro h
    simp [coolDownWait, h]
  · intro h
    have : ¬ critical < temp := by omega
    simp [coolDownWait, this]

/-- Witness for the amended C8 at concrete inputs: reading 90 (strictly above
critical 80) waits `5 + (90 - 65) = 30`; reading 80 (exactly critical) waits
2. -/
theorem c8_wait_formula_witness :
    coolDownWait 80 65 90 = 5 + ((90 : Int) - 65) ∧ coolDownWait 80 65 80 = 2 :=
  ⟨(c8_wait_formula 80 65 90).1 (by decide), (c8_wait_formula 80 65 80).2 (by decide)⟩

/-! ## File discovery and filter: `parseDirectory` (main.go lines 200-228)

`parseDirectory` runs `filepath.Walk` over the root directory.  The walk
callback:
- for a directory, returns `filepath.SkipDir` (pruning the whole subtree;
  for the root, ending the walk) if the directory's full path contains any
  excluded substring (`strings.Contains(path, exclude)`);
- for a file, skips it if its basename equals an excluded-file entry, and
  otherwise appends it iff its extension is in the fixed allow-list.

The filesystem is modelled as an inductive tree of named entries; the walk
visits a child of a directory at path `p` under path `p ++ "/" ++ name`,
matching `filepath.Join`.  (The real walk visits children in lexical order;
no claim depends on the order, so the model keeps the given child order.) -/

/-- A filesystem entry: a file or a directory with children. -/
inductive Entry where
  | file (name : String)
  | dir (name : String) (children : List Entry)

/-- Name of an entry. -/
def entryName : Entry → String
  | Entry.file n => n
  | Entry.dir n _ => n

/-- Go `strings.Contains s sub`: `sub` occurs as a contiguous substring. -/
def goContains (s sub : String) : Bool :=
  s.toList.tails.any (fun t => sub.toList.isPrefixOf t)

/-- Go `filepath.Base` for the slash-separated paths produced by the walk:
the part after the last `/`. -/
def goBase (s : String) : String :=
  String.mk ((s.toList.reverse.takeWhile (fun c => c != '/')).reverse)

/-- Go `filepath.Ext`: the suffix of the final path element beginning at its
final dot; empty if the final element has no dot. -/
def goExt (s : String) : String :=
  let b := (goBase s).toList
  if b.contains '.' then
    String.mk ('.' :: (b.reverse.takeWhile (fun c => c != '.')).reverse)
  else ""

/-- The fixed extension allow-list (main.go line 221). -/
def allowedExtensions : List String :=
  [".py", ".js", ".ts", ".java", ".cpp", ".c", ".go", ".vue", ".jsx", ".tsx"]

mutual

/-- One step of the `filepath.Walk` callback of `parseDirectory`, applied to
the entry at the given full path. -/
def walkEntry (excludeDirs excludeFiles : List String) :
    String → Entry → List String
  | path, Entry.file _ =>
    if excludeFiles.contains (goBase path) then []
    else if allowedExtensions.contains (goExt path) then [path]
    else []
  | path, Entry.dir _ children =>
    if excludeDirs.any (fun e => goContains path e) then []
    else walkChildren excludeDirs excludeFiles path children

/-- Walk the children of a directory at `path`, left to right. -/
def walkChildren (excludeDirs excludeFiles : List String) :
    String → List Entry → List String
  | _, [] => []
  | path, c :: cs =>
    walkEntry excludeDirs excludeFiles (path ++ "/" ++ entryName c) c ++
      walkChildren excludeDirs excludeFiles path cs

end

/-- `parseDirectory(directoryPath, excludeDirs, excludeFiles)` over the tree
`root` mounted at `directoryPath` (the walk callback sees the root entry at
the path `directoryPath` itself). -/
def parseDirectory (directoryPath : String) (root : Entry)
    (excludeDirs excludeFiles : List String) : List String :=
  walkEntry excludeDirs excludeFiles directoryPath root

mutual

/-- All file occurrences in the tree: each as its full path paired with the
list of full paths of the directories on the way to it (the entry's own
ancestors, innermost last, including the subtree root when it is a
directory). -/
def fileOccs : String → Entry → List (String × List String)
  | path, Entry.file _ => [(path, [])]
  | path, Entry.dir _ children =>
    (fileOccsChildren path children).map (fun pr => (pr.fst, path :: pr.snd))

/-- File occurrences of a list of children of a directory at `path`. -/
def fileOccsChildren : String → List Entry → List (String × List String)
  | _, [] => []
  | path, c :: cs =>
    fileOccs (path ++ "/" ++ entryName c) c ++ fileOccsChildren path cs

end

/-- Membership in a children walk is membership in some child's walk. -/
theorem mem_walkChildren (exD exF : List String) (p path : String)
    (cs : List Entry) :
    p ∈ walkChildren exD exF path cs ↔
      ∃ c ∈ cs, p ∈ walkEntry exD exF (path ++ "/" ++ entryName c) c := by
  induction cs with
  | nil => simp [walkChildren]
  | cons c cs ih =>
    simp only [walkChildren, List.mem_append, ih, List.mem_cons]
    constructor
    · rintro (h | ⟨d, hd, hmem⟩)
      · exact ⟨c, Or.inl rfl, h⟩
      · exact ⟨d, Or.inr hd, hmem⟩
    · rintro ⟨d, rfl | hd, hmem⟩
      · exact Or.inl hmem
      · exact Or.inr ⟨d, hd, hmem⟩

/-- Membership in children occurrences is membership in some child's
occurrences. -/
theorem mem_fileOccsChildren (pr : String × List String) (path : String)
    (cs : List Entry) :
    pr ∈ fileOccsChildren path cs ↔
      ∃ c ∈ cs, pr ∈ fileOccs (path ++ "/" ++ entryName c) c := by
  induction cs with
  | nil => simp [fileOccsChildren]
  | cons c cs ih =>
    simp only [fileOccsChildren, List.mem_append, ih, List.mem_cons]
    constructor
    · rintro (h | ⟨d, hd, hmem⟩)
      · exact ⟨c, Or.inl rfl, h⟩
      · exact ⟨d, Or.inr hd, hmem⟩
    · rintro ⟨d, rfl | hd, hmem⟩
      · exact Or.inl hmem
      · exact Or.inr ⟨d, hd, hmem⟩

/-- Every entry of a list is smaller than the list. -/
theorem sizeOf_lt_of_mem_entries {c : Entry} {cs : List Entry}
    (h : c ∈ cs) : sizeOf c < sizeOf cs := by
  induction cs with
  | nil => cases h
  | cons d ds ih =>
    rcases List.mem_cons.mp h with rfl | h
    · simp
      omega
    · have := ih h
      simp
      omega

/-- Characterization of the walk output, by strong induction on the tree
size: a path is returned iff some occurrence of it in the tree has no
ancestor directory (subtree root included) whose full path contains an
excluded substring, its basename is not an excluded-file entry, and its
extension is in the allow-list. -/
theorem mem_walkEntry_iff :
    ∀ (n : Nat) (t : Entry), sizeOf t ≤ n →
    ∀ (exD exF : List String) (path p : String),
    p ∈ walkEntry exD exF path t ↔
      ∃ anc, (p, anc) ∈ fileOccs path t ∧
        (∀ a ∈ anc, ∀ e ∈ exD, goContains a e = false) ∧
        exF.contains (goBase p) = false ∧
        allowedExtensions.contains (goExt p) = true := by
  intro n
  induction n with
  | zero =>
    intro t hn
    exfalso
    cases t with
    | file name => simp at hn
    | dir name children => simp at hn
  | succ m ih =>
    intro t hn exD exF path p
    cases t with
    | file name =>
      constructor
      · intro hmem
        simp only [walkEntry] at hmem
        by_cases hfp : exF.contains (goBase path) = true
        · rw [if_pos hfp] at hmem
          cases hmem
        · rw [if_neg hfp] at hmem
          rw [Bool.not_eq_true] at hfp
          by_cases hep : allowedExtensions.contains (goExt path) = true
          · rw [if_pos hep] at hmem
            have hpp : p = path := by simpa using hmem
            subst hpp
            exact ⟨[], by simp [fileOccs], by simp, hfp, hep⟩
          · rw [if_neg hep] at hmem
            cases hmem
      · rintro ⟨anc, hmem, -, hbase, hext⟩
        have hmem2 : (p, anc) = (path, ([] : List String)) := by
          simpa [fileOccs] using hmem
        injection hmem2 with h1 h2
        subst h1
        simp only [walkEntry]
        rw [if_neg (by rw [hbase]; simp), if_pos hext]
        simp
    | dir name children =>
      by_cases hd : exD.any (fun e => goContains path e) = true
      · constructor
        · intro hmem
          simp only [walkEntry] at hmem
          rw [if_pos hd] at hmem
          cases hmem
        · rintro ⟨anc, hmem, hanc, -, -⟩
          exfalso
          simp only [fileOccs, List.mem_map] at hmem
          obtain ⟨pr, hpr, heq⟩ := hmem
          obtain ⟨e, heD, hce⟩ := List.any_eq_true.mp hd
          have hpa : path ∈ anc := by
            have h2 : path :: pr.snd = anc := congrArg Prod.snd heq
            rw [← h2]
            exact List.mem_cons_self _ _
          have hfalse := hanc path hpa e heD
          rw [hfalse] at hce
          cases hce
      · have hnc : ∀ e ∈ exD, goContains path e = false := by
          intro e he
          rcases Bool.eq_false_or_eq_true (goContains path e) with h | h
          · exact absurd (List.any_eq_true.mpr ⟨e, he, h⟩) hd
          · exact h
        have hstep : walkEntry exD exF path (Entry.dir name children) =
            walkChildren exD exF path children := by
          simp only [walkEntry]
          rw [if_neg hd]
        rw [hstep, mem_walkChildren]
        have hszc : ∀ c ∈ children, sizeOf c ≤ m := by
          intro c hc
          have h1 := sizeOf_lt_of_mem_entries hc
          have h2 : sizeOf children < sizeOf (Entry.dir name children) := by
            simp
          omega
        constructor
        · rintro ⟨c, hc, hmem⟩
          obtain ⟨anc0, hocc, hanc0, hbase, hext⟩ :=
            (ih c (hszc c hc) exD exF (path ++ "/" ++ entryName c) p).mp hmem
          refine ⟨path :: anc0, ?_, ?_, hbase, hext⟩
          · simp only [fileOccs, List.mem_map]
            exact ⟨(p, anc0), (mem_fileOccsChildren _ _ _).mpr ⟨c, hc, hocc⟩, rfl⟩
          · intro a ha
            rcases List.mem_cons.mp ha with rfl | ha
            · exact hnc
            · exact hanc0 a ha
        · rintro ⟨anc, hmem, hanc, hbase, hext⟩
          simp only [fileOccs, List.mem_map] at hmem
          obtain ⟨pr, hpr, heq⟩ := hmem
          have h1 : pr.fst = p := congrArg Prod.fst heq
          have h2 : path :: pr.snd = anc := congrArg Prod.snd heq
          obtain ⟨c, hc, hocc⟩ :=
            (mem_fileOccsChildren pr path children).mp hpr
          refine ⟨c, hc,
            (ih c (hszc c hc) exD exF (path ++ "/" ++ entryName c) p).mpr ?_⟩
          refine ⟨pr.snd, ?_, ?_, hbase, hext⟩
          · rw [← h1]
            exact Prod.mk.eta ▸ hocc
          · intro a ha
            apply hanc
            rw [← h2]
            exact List.mem_cons_of_mem _ ha

/-! ## Claim C3 -/

/-- Counterexample to claim C3 as stated: the excluded-substring check is
applied only to directory paths, so a file whose own path contains an
excluded substring — while no ancestor directory path does — is still
returned.  With root `"r"` holding one file `"x.py"` and excluded substring
`"x"`, `parseDirectory` returns `["r/x.py"]`, whose single element contains
the excluded substring `"x"`, contradicting "the file list contains no path
that contains any excluded directory substring". -/
theorem c3_counterexample :
    parseDirectory "r" (Entry.dir "r" [Entry.file "x.py"]) ["x"] [] =
      ["r/x.py"] ∧
    goContains "r/x.py" "x" = true := by
  constructor
  · decide
  · decide

/-- Claim C3 (amended): the excluded-substring filter applies to directory
paths only.  A path is in the list returned by `parseDirectory` iff the tree
has an occurrence of it such that (1) no directory on the way to it — the
root included — has a full path containing an excluded substring (so a
directory whose full path contains an excluded substring is pruned together
with its entire subtree), (2) its basename is not an excluded-file entry,
and (3) its extension is in the fixed allow-list.  A file's own path is not
checked against the excluded substrings. -/
theorem c3_parseDirectory_characterization
    (directoryPath : String) (root : Entry)
    (excludeDirs excludeFiles : List String) (p : String) :
    p ∈ parseDirectory directoryPath root excludeDirs excludeFiles ↔
      ∃ anc, (p, anc) ∈ fileOccs directoryPath root ∧
        (∀ a ∈ anc, ∀ e ∈ excludeDirs, goContains a e = false) ∧
        excludeFiles.contains (goBase p) = false ∧
        allowedExtensions.contains (goExt p) = true :=
  mem_walkEntry_iff (sizeOf root) root (Nat.le_refl _)
    excludeDirs excludeFiles directoryPath p

/-- Witness for the amended C3 at a concrete input: a tree with an excluded
subtree (`r/build` with excluded substring `/build`), an excluded basename
(`setup.py`), a disallowed extension (`README.md`) and one qualifying file
(`r/src/a.py`), whose unique occurrence satisfies the three conditions. -/
theorem c3_parseDirectory_characterization_witness :
    parseDirectory "r"
      (Entry.dir "r"
        [Entry.dir "src" [Entry.file "a.py", Entry.file "setup.py"],
         Entry.dir "build" [Entry.file "b.py"],
         Entry.file "README.md"])
      ["/build"] ["setup.py"] = ["r/src/a.py"] ∧
    ((∃ anc, ("r/src/a.py", anc) ∈ fileOccs "r"
        (Entry.dir "r"
          [Entry.dir "src" [Entry.file "a.py", Entry.file "setup.py"],
           Entry.dir "build" [Entry.file "b.py"],
           Entry.file "README.md"]) ∧
        (∀ a ∈ anc, ∀ e ∈ ["/build"], goContains a e = false) ∧
        List.contains ["setup.py"] (goBase "r/src/a.py") = false ∧
        allowedExtensions.contains (goExt "r/src/a.py") = true)) := by
  constructor
  · decide
  · exact (c3_parseDirectory_characterization "r" _ ["/build"] ["setup.py"]
      "r/src/a.py").mp (by decide)

/-! ## The indexing loop of `indexCodebase` (main.go lines 429-616)

The per-file loop body is modelled as a state transformer over a run state
(the counters `processedFiles`, `failedFiles`, `updatedFiles` and the hash
table), emitting a trace of observable events.  Each collaborator call the
loop makes for a file (computing the relative path, hashing the content,
reading the stored hash, creating the doc directory, reading the file,
generating documentation, writing the artifact, committing the hash) is
represented by an oracle field of `FileInput` carrying the outcome that
call would have; the model then reproduces the Go control flow exactly
(each error path does `continue`: it increments `failedFiles` and moves to
the next file, skipping the rest of the body).  Wall-clock times and
temperature readings feeding the cooldown logic are oracles too. -/

/-- The persistent file-hash table (SQLite `file_hashes`, key = file path). -/
def HashStore := List (String × String)

/-- `getFileHash`: the stored hash for a path, if any
(main.go lines 183-192). -/
def getFileHash (st : HashStore) (p : String) : Option String :=
  ((st : List (String × String)).find? (fun kv => kv.fst == p)).map
    (fun kv => kv.snd)

/-- `setFileHash`: `INSERT OR REPLACE` of the hash for a path
(main.go lines 195-198). -/
def setFileHash (st : HashStore) (p h : String) : HashStore :=
  ((p, h) :: (st : List (String × String)).filter (fun kv => kv.fst != p)
    : List (String × String))

/-- Per-file environment for one iteration of the indexing loop: the file's
path and the outcome each external call would have for it. -/
structure FileInput where
  /-- Absolute file path, as produced by `parseDirectory`. -/
  path : String
  /-- Oracle: seconds elapsed since `lastCoolDown` at loop entry
  (`time.Since(lastCoolDown)`, main.go line 458). -/
  sinceLastCoolDown : Nat
  /-- Oracle: temperature reading for the pre-iteration check
  (main.go line 464). -/
  preTemp : Int
  /-- Whether `filepath.Rel` succeeds (main.go line 476). -/
  relPathOk : Bool
  /-- `calculateMD5Hash` outcome: `some hash`, or `none` on error
  (main.go line 486). -/
  hashResult : Option String
  /-- Whether the `getFileHash` DB read succeeds (main.go line 495). -/
  getHashOk : Bool
  /-- Whether `os.MkdirAll` succeeds (main.go line 509). -/
  mkdirOk : Bool
  /-- Whether `ioutil.ReadFile` succeeds (main.go line 516). -/
  readOk : Bool
  /-- `generateComments` outcome: `some text`, or `none` on error
  (main.go line 524). -/
  genResult : Option String
  /-- Whether `ioutil.WriteFile` of the artifact succeeds
  (main.go line 532). -/
  writeOk : Bool
  /-- Whether the `setFileHash` DB write succeeds (main.go line 547). -/
  setHashOk : Bool
  /-- Oracle: observed per-file processing time in seconds
  (`time.Since(fileStartTime)`, main.go line 554). -/
  fileTime : Nat
  /-- Oracle: observed cumulative processing time in seconds
  (`time.Since(startTotalTime)`, main.go line 555). -/
  totalTime : Nat
  /-- Oracle: temperature reading for the post-iteration check
  (main.go line 567). -/
  postTemp : Int

/-- Mutable state of one indexing run: the three counters of
`indexCodebase` (main.go lines 400-402) and the hash table. -/
structure RunState where
  processedFiles : Nat
  failedFiles : Nat
  updatedFiles : Nat
  hashes : HashStore

/-- Observable events of the indexing loop, in program order. -/
inductive Event where
  /-- A `generateComments` call was issued for the file (main.go line 524). -/
  | genCall (path : String)
  /-- The documentation artifact was successfully written
  (main.go line 532). -/
  | artifactWrite (path : String)
  /-- The file's hash was committed to the store (main.go line 547). -/
  | hashCommit (path : String) (hash : String)
  /-- `failedFiles` was incremented. -/
  | failIncr (path : String)
  /-- The mandatory batch pause after every 10th successfully processed
  file (main.go lines 541-544). -/
  | batchPause (seconds : Nat)
  /-- The remaining-cooldown sleep of the fallback pre-check
  (main.go lines 460-462). -/
  | preSleep (seconds : Nat)
  /-- The fixed elapsed-time cooldown sleep (main.go line 562). -/
  | fixedCooldown (seconds : Nat)
  /-- A temperature-triggered `CoolDown` invocation (main.go lines 465-471
  and 568-574). -/
  | thermalCoolDown (temp : Int)
deriving DecidableEq

/-- `getTemperature` as seen by the loop: in fallback mode it returns 0 (with
an error that the loop ignores at the call sites that read the value,
main.go lines 464 and 567; review.go lines 112-115). -/
def getTemperature (useFallback : Bool) (reading : Int) : Int :=
  if useFallback then 0 else reading

/-- The pre-iteration cooldown check (main.go lines 458-474): within
`coolDownPeriod` of the last elapsed-time cooldown, fallback mode sleeps the
remaining seconds; otherwise a critical reading triggers `CoolDown`. -/
def preEvents (useFallback : Bool) (f : FileInput) : List Event :=
  if f.sinceLastCoolDown < coolDownPeriod then
    if useFallback then
      [Event.preSleep (coolDownPeriod - f.sinceLastCoolDown)]
    else if criticalTemp ≤ getTemperature useFallback f.preTemp then
      [Event.thermalCoolDown f.preTemp]
    else []
  else []

/-- Result of the post-iteration cooldown decision. -/
structure PostStep where
  /-- `some d`: the fixed elapsed-time cooldown fired, sleeping `d`
  seconds. -/
  fixedSleep : Option Nat
  /-- Whether `startTotalTime` is reset afterwards (main.go line 565). -/
  timersReset : Bool
  /-- Whether the temperature branch invoked `CoolDown`
  (main.go lines 568-574). -/
  thermalCoolDown : Bool
deriving DecidableEq

/-- The post-iteration cooldown decision (main.go lines 553-575):

```go
if tempMonitor.useFallback && fileProcessTime > maxFileProcessTime || totalProcessTime > maxTotalProcessTime {
    lastCoolDown = time.Now()
    time.Sleep(coolDownPeriod)
    startTotalTime = time.Now()
} else {
    temp, source, _ := tempMonitor.getTemperature()
    if temp >= tempMonitor.criticalTemp { ... tempMonitor.CoolDown() ... }
}
```

Go gives `&&` precedence over `||`, so the trigger is
`(useFallback && fileTime > max) || totalTime > max`. -/
def postStep (useFallback : Bool) (fileTime totalTime : Nat) (reading : Int) :
    PostStep :=
  if (useFallback && decide (maxFileProcessTime < fileTime))
      || decide (maxTotalProcessTime < totalTime) then
    { fixedSleep := some coolDownPeriod, timersReset := true,
      thermalCoolDown := false }
  else
    { fixedSleep := none, timersReset := false,
      thermalCoolDown :=
        decide (criticalTemp ≤ getTemperature useFallback reading) }

/-- Events of the post-iteration cooldown check for a file. -/
def postEvents (useFallback : Bool) (f : FileInput) : List Event :=
  match (postStep useFallback f.fileTime f.totalTime f.postTemp).fixedSleep with
  | some d => [Event.fixedCooldown d]
  | none =>
    if (postStep useFallback f.fileTime f.totalTime f.postTemp).thermalCoolDown
    then [Event.thermalCoolDown f.postTemp]
    else []

/-- One iteration of the indexing loop (main.go lines 454-577) over one
file, following the Go control flow statement by statement.  Every `continue`
path skips the remainder of the body (in particular the post-iteration
cooldown check, which only runs for files that reach the end of the body). -/
def processFile (useFallback : Bool) (s : RunState) (f : FileInput) :
    RunState × List Event :=
  let pre := preEvents useFallback f
  if f.relPathOk = false then
    ({ s with failedFiles := s.failedFiles + 1 }, pre ++ [Event.failIncr f.path])
  else
    match f.hashResult with
    | none =>
      ({ s with failedFiles := s.failedFiles + 1 },
       pre ++ [Event.failIncr f.path])
    | some currentHash =>
      if f.getHashOk = false then
        ({ s with failedFiles := s.failedFiles + 1 },
         pre ++ [Event.failIncr f.path])
      else if getFileHash s.hashes f.path == some currentHash then
        (s, pre)
      else
        let s1 := { s with updatedFiles := s.updatedFiles + 1 }
        if f.mkdirOk = false then
          ({ s1 with failedFiles := s1.failedFiles + 1 },
           pre ++ [Event.failIncr f.path])
        else if f.readOk = false then
          ({ s1 with failedFiles := s1.failedFiles + 1 },
           pre ++ [Event.failIncr f.path])
        else
          match f.genResult with
          | none =>
            ({ s1 with failedFiles := s1.failedFiles + 1 },
             pre ++ [Event.genCall f.path, Event.failIncr f.path])
          | some _ =>
            if f.writeOk = false then
              ({ s1 with failedFiles := s1.failedFiles + 1 },
               pre ++ [Event.genCall f.path, Event.failIncr f.path])
            else
              let s2 := { s1 with processedFiles := s1.processedFiles + 1 }
              let pauseEvts :=
                if s2.processedFiles % 10 == 0 then
                  [Event.batchPause batchPauseSeconds]
                else []
              if f.setHashOk then
                ({ s2 with hashes := setFileHash s2.hashes f.path currentHash },
                 pre ++ [Event.genCall f.path, Event.artifactWrite f.path]
                   ++ pauseEvts ++ [Event.hashCommit f.path currentHash]
                   ++ postEvents useFallback f)
              else
                ({ s2 with failedFiles := s2.failedFiles + 1 },
                 pre ++ [Event.genCall f.path, Event.artifactWrite f.path]
                   ++ pauseEvts ++ [Event.failIncr f.path]
                   ++ postEvents useFallback f)

/-- The indexing loop over the discovered file list, threading the run state
and concatenating the event traces. -/
def runFiles (useFallback : Bool) (s : RunState) :
    List FileInput → RunState × List Event
  | [] => (s, [])
  | f :: fs =>
    let step := processFile useFallback s f
    let rest := runFiles useFallback step.fst fs
    (rest.fst, step.snd ++ rest.snd)

/-- Whether the loop classifies the file as New or Modified at state `s`
(the guard of `updatedFiles++`, main.go lines 503-507): the three reads
before the hash comparison succeed and the stored hash is absent or differs
from the current content hash. -/
def classifiedChanged (s : RunState) (f : FileInput) : Bool :=
  match f.hashResult with
  | none => false
  | some h =>
    f.relPathOk && f.getHashOk && !(getFileHash s.hashes f.path == some h)

/-- Whether the file is successfully processed at state `s` (reaches
`processedFiles++`, main.go line 539). -/
def fileSucceeds (s : RunState) (f : FileInput) : Bool :=
  match f.hashResult with
  | none => false
  | some h =>
    f.relPathOk && f.getHashOk && !(getFileHash s.hashes f.path == some h)
      && f.mkdirOk && f.readOk && f.genResult.isSome && f.writeOk

/-- Number of files a run starting at `s` classifies as New or Modified. -/
def changedCount (useFallback : Bool) (s : RunState) :
    List FileInput → Nat
  | [] => 0
  | f :: fs =>
    (if classifiedChanged s f then 1 else 0) +
      changedCount useFallback (processFile useFallback s f).fst fs

/-- The initial run state (main.go lines 400-402). -/
def initialState (initHashes : HashStore) : RunState :=
  { processedFiles := 0, failedFiles := 0, updatedFiles := 0,
    hashes := initHashes }

/-- Result of a full `indexCodebase` run. -/
structure RunResult where
  state : RunState
  events : List Event
  /-- How many destructive vector-store rebuilds the run performs
  (`os.RemoveAll` + `chromem.NewPersistentDB` + `createVectorStore`,
  main.go lines 601-615): one if `updatedFiles > 0`, none otherwise. -/
  rebuilds : Nat

/-- `indexCodebase` over a discovered file list: run the loop, then rebuild
the vector store iff `updatedFiles > 0` (main.go lines 601-615). -/
def indexCodebase (useFallback : Bool) (initHashes : HashStore)
    (files : List FileInput) : RunResult :=
  let r := runFiles useFallback (initialState initHashes) files
  { state := r.fst, events := r.snd,
    rebuilds := if 0 < r.fst.updatedFiles then 1 else 0 }

/-! ## Per-file lemmas about the loop body -/

/-- One iteration increments `updatedFiles` exactly when the file is
classified New or Modified. -/
theorem processFile_updatedFiles (uf : Bool) (s : RunState) (f : FileInput) :
    (processFile uf s f).fst.updatedFiles =
      s.updatedFiles + (if classifiedChanged s f then 1 else 0) := by
  obtain ⟨path, slc, preT, rOk, hres, gOk, mOk, rdOk, gen, wOk, sOk, ft, tt, postT⟩ := f
  cases rOk with
  | false => cases hres <;> simp [processFile, classifiedChanged]
  | true =>
    cases hres with
    | none => simp [processFile, classifiedChanged]
    | some h =>
      cases gOk with
      | false => simp [processFile, classifiedChanged]
      | true =>
        by_cases hm : (getFileHash s.hashes path == some h) = true
        · simp [processFile, classifiedChanged, hm]
        · have hm2 : (getFileHash s.hashes path == some h) = false := by
            revert hm
            cases getFileHash s.hashes path == some h <;> simp
          cases mOk <;> cases rdOk <;> cases gen <;> cases wOk <;> cases sOk <;>
            simp [processFile, classifiedChanged, hm2]

/-- Over a run, `updatedFiles` grows by exactly the number of files
classified New or Modified. -/
theorem runFiles_updatedFiles (uf : Bool) :
    ∀ (fs : List FileInput) (s : RunState),
    (runFiles uf s fs).fst.updatedFiles =
      s.updatedFiles + changedCount uf s fs := by
  intro fs
  induction fs with
  | nil => intro s; simp [runFiles, changedCount]
  | cons f fs ih =>
    intro s
    simp only [runFiles, changedCount]
    rw [ih, processFile_updatedFiles]
    by_cases hc : classifiedChanged s f
    · simp only [hc, if_true]
      omega
    · simp only [hc, if_false]
      omega

/-! ## Claim C1 -/

/-- Claim C1: an indexing run performs the destructive vector-store rebuild
(`os.RemoveAll` on the store path, recreating it, then `createVectorStore`)
at most once, and performs it iff `updatedFiles > 0`; moreover
`updatedFiles` is exactly the number of files the run classified as New or
Modified. -/
theorem c1_rebuild_iff_updated (uf : Bool) (init : HashStore)
    (files : List FileInput) :
    (indexCodebase uf init files).rebuilds ≤ 1 ∧
    ((indexCodebase uf init files).rebuilds = 1 ↔
      0 < (indexCodebase uf init files).state.updatedFiles) ∧
    (indexCodebase uf init files).state.updatedFiles =
      changedCount uf (initialState init) files := by
  have h := runFiles_updatedFiles uf files (initialState init)
  simp only [indexCodebase]
  refine ⟨?_, ?_, ?_⟩
  · split <;> simp
  · split <;> simp_all
  · simpa [initialState] using h

/-! ## Trace-shape lemmas -/

/-- The pre-iteration check only ever sleeps or calls `CoolDown`. -/
theorem mem_preEvents_shape (uf : Bool) (f : FileInput) (e : Event)
    (he : e ∈ preEvents uf f) :
    (∃ n, e = Event.preSleep n) ∨ (∃ t, e = Event.thermalCoolDown t) := by
  unfold preEvents at he
  split_ifs at he <;> simp_all

/-- The post-iteration check only ever sleeps or calls `CoolDown`. -/
theorem mem_postEvents_shape (uf : Bool) (f : FileInput) (e : Event)
    (he : e ∈ postEvents uf f) :
    (∃ n, e = Event.fixedCooldown n) ∨ (∃ t, e = Event.thermalCoolDown t) := by
  unfold postEvents at he
  cases hps : (postStep uf f.fileTime f.totalTime f.postTemp).fixedSleep with
  | none =>
    rw [hps] at he
    split_ifs at he <;> simp_all
  | some d =>
    rw [hps] at he
    simp_all

/-- Dichotomy of one iteration's event trace: either the file does not reach
`processedFiles++` and the trace is the pre-check events plus at most a
generation call and one failure increment, or the file succeeds and the
trace is pre-check, generation call, artifact write, the conditional batch
pause, the hash commit (or a failure increment if the hash write fails), and
the post-check events, in this order. -/
theorem processFile_trace (uf : Bool) (s : RunState) (f : FileInput) :
    (fileSucceeds s f = false ∧ ∃ mid,
       (processFile uf s f).snd = preEvents uf f ++ mid ∧
       (mid = [] ∨ mid = [Event.failIncr f.path] ∨
        mid = [Event.genCall f.path, Event.failIncr f.path])) ∨
    (∃ h, f.hashResult = some h ∧ fileSucceeds s f = true ∧
       ∃ tail, (tail = [Event.hashCommit f.path h] ∨
                tail = [Event.failIncr f.path]) ∧
       (processFile uf s f).snd =
         preEvents uf f ++ [Event.genCall f.path, Event.artifactWrite f.path]
           ++ (if (s.processedFiles + 1) % 10 == 0 then
                 [Event.batchPause batchPauseSeconds] else [])
           ++ tail ++ postEvents uf f) := by
  obtain ⟨path, slc, preT, rOk, hres, gOk, mOk, rdOk, gen, wOk, sOk, ft, tt, postT⟩ := f
  cases hres with
  | none =>
    left
    cases rOk <;>
      exact ⟨by simp [fileSucceeds], [Event.failIncr path],
        by simp [processFile], by simp⟩
  | some h =>
    cases rOk with
    | false =>
      left
      exact ⟨by simp [fileSucceeds], [Event.failIncr path],
        by simp [processFile], by simp⟩
    | true =>
      cases gOk with
      | false =>
        left
        exact ⟨by simp [fileSucceeds], [Event.failIncr path],
          by simp [processFile], by simp⟩
      | true =>
        by_cases hm : (getFileHash s.hashes path == some h) = true
        · left
          exact ⟨by simp [fileSucceeds, hm], [],
            by simp [processFile, hm], by simp⟩
        · have hm2 : (getFileHash s.hashes path == some h) = false := by
            revert hm
            cases getFileHash s.hashes path == some h <;> simp
          cases mOk with
          | false =>
            left
            exact ⟨by simp [fileSucceeds, hm2], [Event.failIncr path],
              by simp [processFile, hm2], by simp⟩
          | true =>
            cases rdOk with
            | false =>
              left
              exact ⟨by simp [fileSucceeds, hm2], [Event.failIncr path],
                by simp [processFile, hm2], by simp⟩
            | true =>
              cases gen with
              | none =>
                left
                exact ⟨by simp [fileSucceeds, hm2],
                  [Event.genCall path, Event.failIncr path],
                  by simp [processFile, hm2], by simp⟩
              | some g =>
                cases wOk with
                | false =>
                  left
                  exact ⟨by simp [fileSucceeds, hm2],
                    [Event.genCall path, Event.failIncr path],
                    by simp [processFile, hm2], by simp⟩
                | true =>
                  cases sOk with
                  | true =>
                    right
                    refine ⟨h, rfl, by simp [fileSucceeds, hm2],
                      [Event.hashCommit path h], Or.inl rfl, ?_⟩
                    simp [processFile, hm2]
                  | false =>
                    right
                    refine ⟨h, rfl, by simp [fileSucceeds, hm2],
                      [Event.failIncr path], Or.inr rfl, ?_⟩
                    simp [processFile, hm2]

/-- A hash commit never appears in the pre-check events. -/
theorem hashCommit_notin_preEvents (uf : Bool) (f : FileInput)
    (p h : String) : Event.hashCommit p h ∉ preEvents uf f := by
  intro hx
  rcases mem_preEvents_shape uf f _ hx with ⟨n, hn⟩ | ⟨t, ht⟩ <;> simp_all

/-- A hash commit never appears in the post-check events. -/
theorem hashCommit_notin_postEvents (uf : Bool) (f : FileInput)
    (p h : String) : Event.hashCommit p h ∉ postEvents uf f := by
  intro hx
  rcases mem_postEvents_shape uf f _ hx with ⟨n, hn⟩ | ⟨t, ht⟩ <;> simp_all

/-- A batch pause never appears in the pre-check events. -/
theorem batchPause_notin_preEvents (uf : Bool) (f : FileInput) (d : Nat) :
    Event.batchPause d ∉ preEvents uf f := by
  intro hx
  rcases mem_preEvents_shape uf f _ hx with ⟨n, hn⟩ | ⟨t, ht⟩ <;> simp_all

/-- A batch pause never appears in the post-check events. -/
theorem batchPause_notin_postEvents (uf : Bool) (f : FileInput) (d : Nat) :
    Event.batchPause d ∉ postEvents uf f := by
  intro hx
  rcases mem_postEvents_shape uf f _ hx with ⟨n, hn⟩ | ⟨t, ht⟩ <;> simp_all

/-! ## Claim C4 -/

/-- Claim C4: (1) whenever an iteration's trace contains a hash commit, the
trace also contains a successful artifact write strictly before it (the
two-event list is a sublist of the trace); (2) if documentation generation
fails for a New/Modified file (all earlier steps succeed, `generateComments`
errors), the iteration increments `failedFiles` by one, leaves the hash
store untouched and commits no hash; and (3) the loop always continues with
the remaining files after any single file — the run is never aborted by a
per-file failure. -/
theorem c4_commit_after_write (uf : Bool) (s : RunState) (f : FileInput) :
    (∀ p h, Event.hashCommit p h ∈ (processFile uf s f).snd →
       List.Sublist [Event.artifactWrite p, Event.hashCommit p h]
         (processFile uf s f).snd) ∧
    (∀ h, f.relPathOk = true → f.hashResult = some h → f.getHashOk = true →
       (getFileHash s.hashes f.path == some h) = false → f.mkdirOk = true →
       f.readOk = true → f.genResult = none →
       (processFile uf s f).fst.failedFiles = s.failedFiles + 1 ∧
       (processFile uf s f).fst.hashes = s.hashes ∧
       (∀ p hh, Event.hashCommit p hh ∉ (processFile uf s f).snd)) ∧
    (∀ fs, (runFiles uf s (f :: fs)).fst =
       (runFiles uf (processFile uf s f).fst fs).fst) := by
  refine ⟨?_, ?_, fun fs => rfl⟩
  · intro p h hmem
    rcases processFile_trace uf s f with
      ⟨-, mid, heq, hmid⟩ | ⟨h0, -, -, tail, htail, heq⟩
    · exfalso
      rw [heq] at hmem
      rcases List.mem_append.mp hmem with hpre | hmid2
      · exact hashCommit_notin_preEvents uf f p h hpre
      · rcases hmid with rfl | rfl | rfl <;> simp_all
    · rw [heq] at hmem ⊢
      have hnpre := hashCommit_notin_preEvents uf f p h
      have hnpost := hashCommit_notin_postEvents uf f p h
      rcases htail with rfl | rfl
      · have hph : p = f.path ∧ h = h0 := by
          by_cases hb : ((s.processedFiles + 1) % 10 == 0) = true <;>
            simp [hb, hnpre, hnpost] at hmem <;> simp [hmem]
        rw [hph.1, hph.2]
        have hcore : List.Sublist
            [Event.artifactWrite f.path, Event.hashCommit f.path h0]
            (Event.genCall f.path :: Event.artifactWrite f.path ::
              ((if (s.processedFiles + 1) % 10 == 0 then
                  [Event.batchPause batchPauseSeconds] else []) ++
                (Event.hashCommit f.path h0 :: postEvents uf f))) := by
          refine List.Sublist.cons _ (List.Sublist.cons₂ _ ?_)
          exact List.Sublist.trans
            (List.Sublist.cons₂ _ (List.nil_sublist _))
            (List.sublist_append_right _ _)
        have hbig := List.Sublist.trans hcore
          (List.sublist_append_right (preEvents uf f) _)
        simp only [List.append_assoc, List.cons_append, List.nil_append] at hbig ⊢
        exact hbig
      · exfalso
        by_cases hb : ((s.processedFiles + 1) % 10 == 0) = true <;>
          simp [hb, hnpre, hnpost] at hmem
  · intro h h1 h2 h3 h4 h5 h6 h7
    have heq : processFile uf s f =
        ({ s with updatedFiles := s.updatedFiles + 1,
                  failedFiles := s.failedFiles + 1 },
         preEvents uf f ++ [Event.genCall f.path, Event.failIncr f.path]) := by
      simp [processFile, h1, h2, h3, h4, h5, h6, h7]
    rw [heq]
    refine ⟨rfl, rfl, ?_⟩
    intro p hh hx
    rcases List.mem_append.mp hx with hpre | hrest
    · exact hashCommit_notin_preEvents uf f p hh hpre
    · simp_all

/-- A concrete modified file whose every external call succeeds. -/
def sampleChangedFile : FileInput :=
  { path := "b.py", sinceLastCoolDown := 100, preTemp := 70,
    relPathOk := true, hashResult := some "h2", getHashOk := true,
    mkdirOk := true, readOk := true, genResult := some "docs", writeOk := true,
    setHashOk := true, fileTime := 1, totalTime := 1, postTemp := 70 }

/-- A concrete modified file whose `generateComments` call fails. -/
def sampleGenFailFile : FileInput :=
  { sampleChangedFile with path := "c.py", genResult := none }

/-- Witness for C4 at concrete inputs: for a file processed end to end, the
artifact write precedes the hash commit in the trace; for a file whose
generation fails, the failure counter becomes 1, the hash store stays empty
and no commit is emitted. -/
theorem c4_commit_after_write_witness :
    List.Sublist
      [Event.artifactWrite "b.py", Event.hashCommit "b.py" "h2"]
      (processFile false (initialState []) sampleChangedFile).snd ∧
    (processFile false (initialState []) sampleGenFailFile).fst.failedFiles
      = 0 + 1 ∧
    (processFile false (initialState []) sampleGenFailFile).fst.hashes = [] ∧
    (∀ p hh, Event.hashCommit p hh ∉
       (processFile false (initialState []) sampleGenFailFile).snd) := by
  refine ⟨?_, ?_⟩
  · exact (c4_commit_after_write false (initialState [])
      sampleChangedFile).1 "b.py" "h2" (by decide)
  · have h := (c4_commit_after_write false (initialState [])
      sampleGenFailFile).2.1 "h2" rfl rfl rfl (by decide) rfl rfl rfl
    exact ⟨h.1, h.2.1, h.2.2⟩

/-! ## Claim C9 -/

/-- An iteration's trace contains a batch pause exactly when the file is
successfully processed and the incremented `processedFiles` counter is a
multiple of 10; the pause always lasts `batchPauseSeconds`. -/
theorem batchPause_mem_iff (uf : Bool) (s : RunState) (f : FileInput)
    (d : Nat) :
    Event.batchPause d ∈ (processFile uf s f).snd ↔
      (fileSucceeds s f = true ∧ (s.processedFiles + 1) % 10 = 0 ∧
       d = batchPauseSeconds) := by
  have hnpre := batchPause_notin_preEvents uf f d
  have hnpost := batchPause_notin_postEvents uf f d
  constructor
  · intro hmem
    rcases processFile_trace uf s f with
      ⟨hf, mid, heq, hmid⟩ | ⟨h0, -, hsucc, tail, htail, heq⟩
    · exfalso
      rw [heq] at hmem
      rcases List.mem_append.mp hmem with hpre | hmid2
      · exact hnpre hpre
      · rcases hmid with rfl | rfl | rfl <;> simp_all
    · rw [heq] at hmem
      by_cases hb : ((s.processedFiles + 1) % 10 == 0) = true
      · have hd : d = batchPauseSeconds := by
          rcases htail with rfl | rfl <;>
            simp [hb, hnpre, hnpost] at hmem <;> simp [hmem]
        exact ⟨hsucc, by simpa using hb, hd⟩
      · exfalso
        rcases htail with rfl | rfl <;> simp [hb, hnpre, hnpost] at hmem
  · rintro ⟨hsucc, hmod, rfl⟩
    rcases processFile_trace uf s f with
      ⟨hf, -, -, -⟩ | ⟨h0, -, -, tail, htail, heq⟩
    · rw [hsucc] at hf
      cases hf
    · rw [heq]
      have hb : ((s.processedFiles + 1) % 10 == 0) = true := by simpa using hmod
      simp [hb]

/-- Claim C9: after every 10th successfully processed file the loop inserts
the mandatory fixed pause of `batchPauseSeconds`, and only then: a batch
pause appears in an iteration's trace iff the file succeeded and the new
`processedFiles` count is a multiple of 10, with the fixed duration; and
whether it appears is independent of the temperature readings of that
iteration. -/
theorem c9_mandatory_batch_pause (uf : Bool) (s : RunState) (f : FileInput) :
    (∀ d, Event.batchPause d ∈ (processFile uf s f).snd ↔
       (fileSucceeds s f = true ∧ (s.processedFiles + 1) % 10 = 0 ∧
        d = batchPauseSeconds)) ∧
    (∀ t₁ u₁ t₂ u₂ d,
       (Event.batchPause d ∈
          (processFile uf s { f with preTemp := t₁, postTemp := u₁ }).snd) ↔
       (Event.batchPause d ∈
          (processFile uf s { f with preTemp := t₂, postTemp := u₂ }).snd)) := by
  refine ⟨fun d => batchPause_mem_iff uf s f d, ?_⟩
  intro t₁ u₁ t₂ u₂ d
  rw [batchPause_mem_iff, batchPause_mem_iff]
  exact Iff.rfl

/-! ## Claim C5 -/

/-- An unchanged file (stored hash present and equal to the content hash,
no per-file error) is skipped entirely: the state is untouched and only the
pre-check events are emitted. -/
theorem processFile_unchanged (uf : Bool) (s : RunState) (f : FileInput)
    (h : String) (h1 : f.relPathOk = true) (h2 : f.getHashOk = true)
    (h3 : f.hashResult = some h) (h4 : getFileHash s.hashes f.path = some h) :
    processFile uf s f = (s, preEvents uf f) := by
  simp [processFile, h1, h2, h3, h4]

/-- A run over files that are all unchanged with respect to the current
state leaves the state untouched and emits only sleeps and cooldown calls. -/
theorem runFiles_unchanged (uf : Bool) :
    ∀ (fs : List FileInput) (s : RunState),
    (∀ f ∈ fs, f.relPathOk = true ∧ f.getHashOk = true ∧
       ∃ h, f.hashResult = some h ∧ getFileHash s.hashes f.path = some h) →
    (runFiles uf s fs).fst = s ∧
    (∀ e ∈ (runFiles uf s fs).snd,
       (∃ n, e = Event.preSleep n) ∨ (∃ t, e = Event.thermalCoolDown t)) := by
  intro fs
  induction fs with
  | nil =>
    intro s h
    exact ⟨rfl, by simp [runFiles]⟩
  | cons f fs ih =>
    intro s h
    obtain ⟨h1, h2, hh, h3, h4⟩ := h f (List.mem_cons_self f fs)
    have hpf := processFile_unchanged uf s f hh h1 h2 h3 h4
    have hrest := ih s (fun g hg => h g (List.mem_cons_of_mem f hg))
    constructor
    · show (runFiles uf s (f :: fs)).fst = s
      simp only [runFiles, hpf]
      exact hrest.1
    · intro e he
      simp only [runFiles, hpf] at he
      rcases List.mem_append.mp he with hp | hr
      · exact mem_preEvents_shape uf f e hp
      · exact hrest.2 e hr

/-- Claim C5: re-running `indexCodebase` over a tree in which every
discovered file's content hash equals its stored hash (and no per-file I/O
error occurs) performs zero `generateComments` calls, zero `setFileHash`
writes and zero vector-store rebuilds, and leaves the hash store and all
counters untouched. -/
theorem c5_unchanged_tree_noop (uf : Bool) (init : HashStore)
    (files : List FileInput)
    (h : ∀ f ∈ files, f.relPathOk = true ∧ f.getHashOk = true ∧
       ∃ hh, f.hashResult = some hh ∧ getFileHash init f.path = some hh) :
    (∀ p, Event.genCall p ∉ (indexCodebase uf init files).events) ∧
    (∀ p hh, Event.hashCommit p hh ∉ (indexCodebase uf init files).events) ∧
    (indexCodebase uf init files).rebuilds = 0 ∧
    (indexCodebase uf init files).state.hashes = init ∧
    (indexCodebase uf init files).state.processedFiles = 0 ∧
    (indexCodebase uf init files).state.failedFiles = 0 ∧
    (indexCodebase uf init files).state.updatedFiles = 0 := by
  have hr := runFiles_unchanged uf files (initialState init)
    (fun f hf => h f hf)
  have hst := hr.1
  simp only [indexCodebase]
  refine ⟨?_, ?_, ?_, ?_, ?_, ?_, ?_⟩
  · intro p hp
    rcases hr.2 _ hp with ⟨n, hn⟩ | ⟨t, ht⟩ <;> simp_all
  · intro p hh hp
    rcases hr.2 _ hp with ⟨n, hn⟩ | ⟨t, ht⟩ <;> simp_all
  · rw [hst]
    simp [initialState]
  · rw [hst]
    rfl
  · rw [hst]
    rfl
  · rw [hst]
    rfl
  · rw [hst]
    rfl

/-- A concrete unchanged file matching the stored hash `"h1"`. -/
def sampleUnchangedFile : FileInput :=
  { sampleChangedFile with path := "a.py", hashResult := some "h1" }

/-- Witness for C5 at a concrete input: indexing the single unchanged file
`a.py` over a store already holding its hash performs no rebuild, leaves
the store unchanged and issues no generation call. -/
theorem c5_unchanged_tree_noop_witness :
    (indexCodebase false [("a.py", "h1")] [sampleUnchangedFile]).rebuilds = 0 ∧
    (indexCodebase false [("a.py", "h1")] [sampleUnchangedFile]).state.hashes
      = [("a.py", "h1")] ∧
    (∀ p, Event.genCall p ∉
       (indexCodebase false [("a.py", "h1")] [sampleUnchangedFile]).events) := by
  have h := c5_unchanged_tree_noop false [("a.py", "h1")] [sampleUnchangedFile]
    (by
      intro f hf
      have hf2 : f = sampleUnchangedFile := by simpa using hf
      subst hf2
      exact ⟨rfl, rfl, "h1", rfl, by decide⟩)
  exact ⟨h.2.2.1, h.2.2.2.1, h.1⟩

/-! ## Claim C7 -/

/-- Claim C7: in fallback mode the post-iteration cooldown decision is:
the fixed-length sleep of `coolDownPeriod` fires iff the per-file
processing-time cap or the cumulative processing-time cap is exceeded (two
independent OR conditions); when it fires the elapsed-time timer is reset;
no temperature-based cooldown ever fires in fallback mode; and the whole
decision is independent of the temperature reading. -/
theorem c7_fallback_fixed_cooldown (fileTime totalTime : Nat) (reading : Int) :
    (postStep true fileTime totalTime reading =
       if maxFileProcessTime < fileTime ∨ maxTotalProcessTime < totalTime then
         { fixedSleep := some coolDownPeriod, timersReset := true,
           thermalCoolDown := false }
       else
         { fixedSleep := none, timersReset := false,
           thermalCoolDown := false }) ∧
    (∀ r₂, postStep true fileTime totalTime reading =
       postStep true fileTime totalTime r₂) := by
  constructor
  · by_cases h1 : maxFileProcessTime < fileTime <;>
      by_cases h2 : maxTotalProcessTime < totalTime <;>
        simp [postStep, getTemperature, criticalTemp, h1, h2]
  · intro r₂
    rfl

/-! ## Query path: `searchCodebase` (main.go lines 769-822)

`searchCodebase` resolves the project's vector collection with
`ca.vectorDB.GetCollection(projectName, ...)` and immediately calls
`collec.Query(ctx, query, 1, nil, nil)` on the result, without a nil check.
In chromem-go v0.7.0, `DB.GetCollection` returns `nil` when no collection
of that name exists, and `Collection.Query` first validates the query text
and result count and then dereferences the receiver
(`c.documentsLock.RLock()`); on a nil receiver that dereference is a
nil-pointer panic.  The model keeps the chromem validation order and makes
the nil dereference an explicit `nilPanic` outcome.  The chat collaborator
is an explicit function argument; the Ollama client construction is assumed
to succeed (collaborator boundary). -/

/-- A chromem collection: name plus stored documents (id, content). -/
structure Collection where
  name : String
  docs : List (String × String)

/-- The chromem persistent store as seen through collection lookup. -/
structure VectorDB where
  collections : List Collection

/-- `DB.GetCollection` (chromem v0.7.0): the collection with the given name,
or `none` (Go `nil`) if it does not exist. -/
def getCollection (db : VectorDB) (name : String) : Option Collection :=
  db.collections.find? (fun c => c.name == name)

/-- Outcome of a Go call: a value, an error value, or a runtime panic. -/
inductive GoOutcome (α : Type) where
  | ok (val : α)
  | err (msg : String)
  | nilPanic
deriving DecidableEq

/-- `Collection.Query` (chromem v0.7.0) called on a possibly-nil collection
pointer with `nResults` requested documents: empty query text and a zero
request error out before the receiver is touched; then the receiver is
dereferenced — a panic when it is nil — and a request larger than the
document count errors; otherwise up to `nResults` results are returned
(similarity ranking abstracted as taking stored documents). -/
def collectionQuery (c : Option Collection) (queryText : String)
    (nResults : Nat) : GoOutcome (List (String × String)) :=
  if queryText == "" then GoOutcome.err "queryText is empty"
  else if nResults == 0 then GoOutcome.err "nResults must be greater than 0"
  else
    match c with
    | none => GoOutcome.nilPanic
    | some col =>
      if col.docs.length < nResults then
        GoOutcome.err "nResults must be <= the number of documents in the collection"
      else GoOutcome.ok (col.docs.take nResults)

/-- The fixed prompt template of `searchCodebase` (main.go lines 790-793),
with the retrieved context and the query substituted in. -/
def searchPrompt (context query : String) : String :=
  "Context: " ++ context ++ " Question: " ++ query ++
    " Answer query clearly and concisely, include relevant file paths when applicable."

/-- `searchCodebase(projectName, query)` (main.go lines 769-822): resolve the
collection, query it for the top result, concatenate the retrieved contents,
build the prompt and delegate to the chat collaborator `chat`.  Query
errors and chat errors are wrapped and returned; the nil-collection
dereference propagates as a panic. -/
def searchCodebase (chat : String → GoOutcome String) (db : VectorDB)
    (projectName query : String) : GoOutcome String :=
  match collectionQuery (getCollection db projectName) query 1 with
  | GoOutcome.nilPanic => GoOutcome.nilPanic
  | GoOutcome.err m => GoOutcome.err ("failed to search vector DB: " ++ m)
  | GoOutcome.ok results =>
    let code := results.foldl (fun acc r => acc ++ r.snd) ""
    match chat (searchPrompt code query) with
    | GoOutcome.ok ans => GoOutcome.ok ans
    | GoOutcome.err m => GoOutcome.err ("failed to generate comments: " ++ m)
    | GoOutcome.nilPanic => GoOutcome.nilPanic

/-! ## Claim C2 -/

/-- Claim C2 is false on the code and the code is at fault: querying a
project whose vector collection does not exist (in particular a project
with zero indexed artifacts, never indexed) does not return a well-defined
error result — `GetCollection` returns nil and `Query` is invoked on it,
so the call dereferences a nil pointer.  At the concrete failing input
(empty vector store, project `"demo"`, a nonempty query, a chat collaborator
that would answer fine), `searchCodebase` panics instead of returning an
error or an answer. -/
theorem c2_nil_collection_panics :
    searchCodebase (fun _ => GoOutcome.ok "an answer")
      { collections := [] } "demo" "what does this code do" =
      GoOutcome.nilPanic := by
  rfl

/-! ## Vector-store rebuild: `indexCodebase` lines 601-615 and
`createVectorStore` (main.go lines 618-675)

When `updatedFiles > 0`, `indexCodebase` runs
`os.RemoveAll(ca.config.HashDBPath)` — deleting the single backing chromem
directory shared by all projects — recreates an empty persistent store, and
calls `createVectorStore(projectName, path)`, which creates one collection
named after the project being indexed and inserts one record per current
documentation artifact of that project (the artifacts found by walking
`docs_dir/<project>` for `.txt` files, here carried as per-project lists of
relative path and content).  Documentation artifacts on disk and the SQLite
hash table are not touched by this step. -/

/-- One vector record (`chromem.Document`, main.go lines 635-641). -/
structure VectorRecord where
  id : String
  content : String
  /-- `metadata["file_path"]`: the original absolute source path. -/
  filePath : String
deriving DecidableEq

/-- The stores the rebuild step acts on: the backing vector store (named
collections with their records), the documentation artifacts per project
(relative path and content, as laid out under `docs_dir`), and the hash
table. -/
structure Stores where
  vectorCollections : List (String × List VectorRecord)
  docsArtifacts : List (String × List (String × String))
  fileHashes : HashStore

/-- Lookup of a named entry in an association list. -/
def assocFind (l : List (String × α)) (k : String) : Option α :=
  (l.find? (fun kv => kv.fst == k)).map (fun kv => kv.snd)

/-- `createVectorStore(projectName, codebasePath)` (main.go lines 618-675):
walk the project's documentation artifacts, then create the collection named
`projectName` and add one record per artifact, with id the relative path,
content the artifact text and metadata pointing back to the original source
path (`filepath.Join(codebasePath, relPath)`). -/
def createVectorStore (st : Stores) (projectName codebasePath : String) :
    Stores :=
  let artifacts := (assocFind st.docsArtifacts projectName).getD []
  let records := artifacts.map (fun a =>
    { id := a.fst, content := a.snd,
      filePath := codebasePath ++ "/" ++ a.fst : VectorRecord })
  { st with vectorCollections :=
      st.vectorCollections ++ [(projectName, records)] }

/-- The rebuild step of `indexCodebase` (main.go lines 601-615):
`os.RemoveAll` on the shared store path deletes every collection of every
project; `chromem.NewPersistentDB` recreates an empty store; then
`createVectorStore` repopulates only the indexed project's collection. -/
def rebuildVectorStore (st : Stores) (projectName codebasePath : String) :
    Stores :=
  createVectorStore { st with vectorCollections := [] } projectName codebasePath

/-! ## Claim C10 -/

/-- Claim C10: after the rebuild step for project `P`, the backing vector
store holds a collection for `P` (one record per current artifact of `P`)
and no collection for any other project `Q`, while the documentation
artifacts and the hash table of every project are untouched. -/
theorem c10_rebuild_drops_other_projects (st : Stores)
    (P Q codebasePath : String) (h : Q ≠ P) :
    assocFind (rebuildVectorStore st P codebasePath).vectorCollections Q
      = none ∧
    (assocFind (rebuildVectorStore st P codebasePath).vectorCollections P
      = some (((assocFind st.docsArtifacts P).getD []).map (fun a =>
          { id := a.fst, content := a.snd,
            filePath := codebasePath ++ "/" ++ a.fst : VectorRecord }))) ∧
    (rebuildVectorStore st P codebasePath).docsArtifacts = st.docsArtifacts ∧
    (rebuildVectorStore st P codebasePath).fileHashes = st.fileHashes := by
  refine ⟨?_, ?_, rfl, rfl⟩
  · have hne : (P == Q) = false := by
      rw [beq_eq_false_iff_ne]
      exact fun he => h he.symm
    simp [rebuildVectorStore, createVectorStore, assocFind, List.find?, hne]
  · simp [rebuildVectorStore, createVectorStore, assocFind, List.find?]

/-- Witness for C10 at a concrete input: rebuilding project `"p"` over a
store that held collections for `"p"` and `"q"` leaves no collection for
`"q"`, recreates `"p"`'s collection from its one artifact, and keeps the
artifacts and hashes of both projects. -/
theorem c10_rebuild_drops_other_projects_witness :
    assocFind (rebuildVectorStore
      { vectorCollections := [("p", []), ("q", [])],
        docsArtifacts := [("p", [("a.py", "File: a.py docs")]),
                          ("q", [("b.py", "File: b.py docs")])],
        fileHashes := [("a.py", "h1"), ("b.py", "h2")] }
      "p" "root").vectorCollections "q" = none ∧
    (rebuildVectorStore
      { vectorCollections := [("p", []), ("q", [])],
        docsArtifacts := [("p", [("a.py", "File: a.py docs")]),
                          ("q", [("b.py", "File: b.py docs")])],
        fileHashes := [("a.py", "h1"), ("b.py", "h2")] }
      "p" "root").fileHashes = [("a.py", "h1"), ("b.py", "h2")] := by
  have h := c10_rebuild_drops_other_projects
    { vectorCollections := [("p", []), ("q", [])],
      docsArtifacts := [("p", [("a.py", "File: a.py docs")]),
                        ("q", [("b.py", "File: b.py docs")])],
      fileHashes := [("a.py", "h1"), ("b.py", "h2")] }
    "p" "q" "root" (by decide)
  exact ⟨h.1, h.2.2.2⟩

end CodeSage
